import Mathlib

/-!
Verification development for the ODS-1 disk lister (`ods1_lister.py`, `rad50.py`).

The Python source is shallowly embedded: pure parsing helpers become Lean
functions; the open disk-image file becomes an explicit `List Nat` of bytes;
Python exceptions (`OSError`, `Invalid_Block`, `UnicodeDecodeError`,
`NameError`, `AssertionError`, `IndexError`, `ValueError`) become an explicit
error type threaded through `Except`.  A 512-byte block buffer is embedded as
a function `Nat → Nat` from byte offset to byte value (every Python access is
in range for the 512-byte buffers produced by `read_lbn`), or as a `List Nat`
where slicing behaviour matters.
-/

namespace ODS

/-- Python exceptions raised by the source, as an explicit error type.
`invalidBlock` is the source's `Invalid_Block(ValueError)`; `shortRead` is the
`OSError` of `read_lbn`; `unicodeErr` is `UnicodeDecodeError` from
`bytes.decode(encoding='ascii')`; `nameErr` is `NameError` (reading an unbound
local variable); `assertFail` is `AssertionError`; `indexErr` is the
`IndexError` of `list.pop(0)` on an empty list; `valueErr` is the `ValueError`
of `range` with step 0; `fuelOut` is a model artifact marking exhausted
recursion fuel (never an actual behaviour of the source). -/
inductive Err where
  | invalidBlock
  | shortRead
  | unicodeErr
  | nameErr
  | assertFail
  | indexErr
  | valueErr
  | fuelOut
deriving DecidableEq

instance {ε α : Type} [DecidableEq ε] [DecidableEq α] : DecidableEq (Except ε α) :=
  fun a b =>
    match a, b with
    | .ok x, .ok y =>
        if h : x = y then .isTrue (by rw [h])
        else .isFalse (fun c => h (Except.ok.inj c))
    | .error x, .error y =>
        if h : x = y then .isTrue (by rw [h])
        else .isFalse (fun c => h (Except.error.inj c))
    | .ok _, .error _ => .isFalse (fun c => Except.noConfusion c)
    | .error _, .ok _ => .isFalse (fun c => Except.noConfusion c)

/-- Source `w2( buf)` on a buffer-as-function, at byte offset `off`:
`buf[ 0] + ( buf[ 1] << 8)`. -/
def w2f (buf : Nat → Nat) (off : Nat) : Nat :=
  buf off + (buf (off + 1)) * 256

/-- Source `w4( buf)`: `( w2( buf) << 16) + w2( buf[ 2:])` (high word first). -/
def w4f (buf : Nat → Nat) (off : Nat) : Nat :=
  (w2f buf off) * 65536 + w2f buf (off + 2)

/-- The block size in bytes (`Block_SZ = 512`). -/
def Block_SZ : Nat := 512

/-- Source `read_lbn( f, lbn)`: seek to `Block_SZ * lbn`, read `Block_SZ`
bytes, raise `OSError` on a short read.  The opened image file is embedded as
the list of its bytes. -/
def read_lbn (img : List Nat) (lbn : Nat) : Except Err (List Nat) :=
  let buf := (img.drop (Block_SZ * lbn)).take Block_SZ
  if buf.length = Block_SZ then .ok buf else .error .shortRead

/-- The shared extent-resolution loop of `Index_File.fh_lbn` and
`File.read_vb`:

    cnt, lbn = ret_ptrs.pop(0)
    while vbn > cnt:
        vbn -= cnt
        cnt, lbn = ret_ptrs.pop(0)
    return lbn + vbn - 1

`resolveGo cnt lbn rest vbn` is the state after the first `pop(0)`;
`none` is the `IndexError` of popping an exhausted pointer list. -/
def resolveGo (cnt lbn : Nat) (rest : List (Nat × Nat)) (vbn : Nat) : Option Nat :=
  if vbn > cnt then
    match rest with
    | [] => none
    | (c, l) :: r => resolveGo c l r (vbn - cnt)
  else
    some (lbn + vbn - 1)

/-- Entry point of the extent-resolution loop: the initial `pop(0)` on the
retrieval-pointer list (raising `IndexError`, i.e. `none`, when empty). -/
def resolve (ptrs : List (Nat × Nat)) (vbn : Nat) : Option Nat :=
  match ptrs with
  | [] => none
  | (c, l) :: r => resolveGo c l r vbn

/-- Total number of blocks described by a retrieval-pointer list. -/
def total_blocks (ptrs : List (Nat × Nat)) : Nat :=
  (ptrs.map Prod.fst).sum

/-- The claim's description of the scan (subtract each extent's length from V
while V exceeds the current extent's length; answer `start_LBN + remaining V
− 1`), as a total function used only inside the claimed range. -/
def resolveSpec (ptrs : List (Nat × Nat)) (vbn : Nat) : Nat :=
  match ptrs with
  | [] => 0
  | (c, l) :: r => if vbn > c then resolveSpec r (vbn - c) else l + vbn - 1

lemma resolve_cons_gt (c l : Nat) (rest : List (Nat × Nat)) (vbn : Nat)
    (h : vbn > c) : resolve ((c, l) :: rest) vbn = resolve rest (vbn - c) := by
  cases rest with
  | nil => simp [resolve, resolveGo, h]
  | cons p r =>
    cases p with
    | mk c' l' => simp [resolve, resolveGo, h]

lemma resolve_cons_le (c l : Nat) (rest : List (Nat × Nat)) (vbn : Nat)
    (h : ¬ vbn > c) : resolve ((c, l) :: rest) vbn = some (l + vbn - 1) := by
  cases rest with
  | nil => simp [resolve, resolveGo, h]
  | cons p r =>
    cases p with
    | mk c' l' => simp [resolve, resolveGo, h]

lemma resolve_in_range (ptrs : List (Nat × Nat)) (vbn : Nat)
    (h1 : 0 < vbn) (h2 : vbn ≤ total_blocks ptrs) :
    resolve ptrs vbn = some (resolveSpec ptrs vbn) := by
  induction ptrs generalizing vbn with
  | nil =>
    exfalso
    simp [total_blocks] at h2
    omega
  | cons p rest ih =>
    cases p with
    | mk c l =>
      by_cases h : vbn > c
      · rw [resolve_cons_gt c l rest vbn h]
        have hrange : vbn - c ≤ total_blocks rest := by
          simp [total_blocks] at h2 ⊢
          omega
        rw [ih (vbn - c) (by omega) hrange]
        simp [resolveSpec, h]
      · rw [resolve_cons_le c l rest vbn h]
        simp [resolveSpec, h]

/-- C1: Extent resolution.  For every ordered extent list and 1-based virtual
block number `vbn` within the total block count, the pop-and-subtract loop of
`Index_File.fh_lbn` / `File.read_vb` returns the physical LBN described by
the claim's scan (`start_LBN + remaining V − 1`); in particular for extents
`[(5, 100), (3, 200)]`, VBN 1 resolves to LBN 100, VBN 5 to 104, VBN 6 to
200, and VBN 9 (past the 8 described blocks) exhausts the list and fails. -/
theorem extent_resolution_correct :
    (∀ (ptrs : List (Nat × Nat)) (vbn : Nat), 0 < vbn →
      vbn ≤ total_blocks ptrs → resolve ptrs vbn = some (resolveSpec ptrs vbn)) ∧
    resolve [(5, 100), (3, 200)] 1 = some 100 ∧
    resolve [(5, 100), (3, 200)] 5 = some 104 ∧
    resolve [(5, 100), (3, 200)] 6 = some 200 ∧
    resolve [(5, 100), (3, 200)] 9 = none := by
  refine ⟨resolve_in_range, ?_, ?_, ?_, ?_⟩ <;> decide

/-- Witness for C1 at a concrete in-range input. -/
theorem extent_resolution_correct_witness :
    0 < 7 ∧ 7 ≤ total_blocks [(5, 100), (3, 200)] ∧
    resolve [(5, 100), (3, 200)] 7 = some (resolveSpec [(5, 100), (3, 200)] 7) :=
  ⟨by decide, by decide,
    extent_resolution_correct.1 [(5, 100), (3, 200)] 7 (by decide) (by decide)⟩

/-! ## Radix-50 codec (`rad50.py`) -/

/-- The RAD50 alphabet of `rad50.py`:
`" ABCDEFGHIJKLMNOPQRSTUVWXYZ$.%0123456789"` (40 characters). -/
def alphabet : List Char :=
  " ABCDEFGHIJKLMNOPQRSTUVWXYZ$.%0123456789".toList

/-- One step of `decode_wd`: `alphabet[ wd // divisor % radix]`, appending
`n` characters while dividing `divisor` by the radix each iteration. -/
def decodeGo (wd divisor : Nat) : Nat → List Char
  | 0 => []
  | n + 1 =>
      alphabet.getD (wd / divisor % 40) (Char.ofNat 32) :: decodeGo wd (divisor / 40) n

/-- Source `decode_wd`: convert a 16-bit word to 3 characters, starting with
`divisor = radix * radix = 1600`. -/
def decode_wd (wd : Nat) : List Char :=
  decodeGo wd 1600 3

/-- Source `decode_words`: concatenation of `decode_wd` over a word list. -/
def decode_words (ws : List Nat) : List Char :=
  (ws.map decode_wd).flatten

/-- Model of `alphabet.casefold().index( chars[ i:i+1].casefold())`: Python
slicing past the end yields the empty string, and `str.index('')` is `0`;
a missing single character raises `ValueError` (`none` here).  `casefold` on
these ASCII characters is lower-casing. -/
def caseIdx (c : Option Char) : Option Nat :=
  match c with
  | none => some 0
  | some ch => (alphabet.map Char.toLower).indexOf? ch.toLower

/-- Source `encode_wd`: `result = result * radix + index` over the first
three (optionally missing) characters. -/
def encode_wd (cs : List Char) : Option Nat := do
  let i0 ← caseIdx (cs.get? 0)
  let i1 ← caseIdx (cs.get? 1)
  let i2 ← caseIdx (cs.get? 2)
  pure ((i0 * 40 + i1) * 40 + i2)

/-- C5 counterexample: the claim quantifies over every 16-bit value, but for
`v = 64000` the leading digit `v // 1600 = 40` wraps to `0` modulo the radix,
`decode_wd` yields three blanks, and re-encoding gives `0`, not `64000`. -/
theorem rad50_roundtrip_counterexample :
    decode_wd 64000 = [Char.ofNat 32, Char.ofNat 32, Char.ofNat 32] ∧
    encode_wd (decode_wd 64000) = some 0 ∧ (0 : Nat) ≠ 64000 := by
  refine ⟨?_, ?_, ?_⟩ <;> decide

lemma alphabet_getD_mem : ∀ d, d < 40 → alphabet.getD d (Char.ofNat 32) ∈ alphabet := by
  decide

lemma caseIdx_alphabet : ∀ d, d < 40 →
    caseIdx (some (alphabet.getD d (Char.ofNat 32))) = some d := by
  decide

lemma decode_wd_digits (v : Nat) :
    decode_wd v = [alphabet.getD (v / 1600 % 40) (Char.ofNat 32),
      alphabet.getD (v / 40 % 40) (Char.ofNat 32),
      alphabet.getD (v % 40) (Char.ofNat 32)] := by
  simp [decode_wd, decodeGo]

/-- C5 (amended): for every 16-bit `v`, `decode_wd v` is exactly 3 characters
drawn from the 40-character alphabet; the round trip
`encode_wd (decode_wd v) = some v` holds for every canonical radix-50 word,
i.e. `v < 64000` — for `64000 ≤ v ≤ 65535` the leading digit wraps modulo 40
and re-encoding does not restore `v`. -/
theorem rad50_roundtrip_amended (v : Nat) :
    (v < 65536 → (decode_wd v).length = 3 ∧ ∀ c ∈ decode_wd v, c ∈ alphabet) ∧
    (v < 64000 → encode_wd (decode_wd v) = some v) := by
  constructor
  · intro _
    rw [decode_wd_digits]
    refine ⟨rfl, ?_⟩
    intro c hc
    simp only [List.mem_cons, List.not_mem_nil, or_false] at hc
    rcases hc with h | h | h <;>
      { subst h
        exact alphabet_getD_mem _ (Nat.mod_lt _ (by omega)) }
  · intro hv
    rw [decode_wd_digits]
    have h0 : v / 1600 % 40 = v / 1600 := Nat.mod_eq_of_lt (by omega)
    simp only [encode_wd, List.get?, caseIdx_alphabet _ (Nat.mod_lt _ (by omega)),
      Option.bind_eq_bind, Option.some_bind]
    simp only [Option.pure_def, Option.some.injEq]
    rw [h0]
    omega

/-- Witness for C5 at the concrete word 1683 (decodes to "ABC"). -/
theorem rad50_roundtrip_amended_witness :
    1683 < 64000 ∧ encode_wd (decode_wd 1683) = some 1683 :=
  ⟨by decide, (rad50_roundtrip_amended 1683).2 (by decide)⟩

/-! ## Retrieval-pointer list accumulation (`Index_File.__init__`, `File.__init__`)

Both constructors run `self.RTRV = h.RTRV` and then, per extension header,
`self.RTRV.append( h.RTRV)`.  Python `list.append` adds its argument as a
single element, so after the loop the list holds the primary header's
`(count, LBN)` pairs followed by one *nested list* per extension header —
not the flat concatenation.  (The later consumers `fh_lbn` / `read_vb`
unpack each popped element as `cnt, lbn = ret_ptrs.pop(0)`, which requires a
flat pair, confirming the flat list is the intent.)  An element of the
heterogeneous Python list is either a pair or a nested list: -/

/-- One element of the Python `RTRV` list after construction: either a
`(count, LBN)` pair, or a whole nested pointer list added by
`list.append`. -/
inductive RElem where
  | pair (cnt lbn : Nat)
  | nest (l : List (Nat × Nat))
deriving DecidableEq

/-- The `RTRV` value actually built by the constructors' loop, given the
primary header's extent pairs and the chain-ordered extension headers'
extent lists: the primary pairs followed by one nested element per
extension header (`list.append`). -/
def rtrv_code (primary : List (Nat × Nat)) (exts : List (List (Nat × Nat))) :
    List RElem :=
  primary.map (fun p => RElem.pair p.1 p.2) ++ exts.map RElem.nest

/-- The flat concatenation the claim (and the spec) describes. -/
def rtrv_flat (primary : List (Nat × Nat)) (exts : List (List (Nat × Nat))) :
    List RElem :=
  (primary ++ exts.flatten).map (fun p => RElem.pair p.1 p.2)

/-- C2: evaluating the constructors' accumulation at a file whose primary
header holds `[(5, 100)]` and whose single extension header holds
`[(3, 200)]`: the code yields the nested `[pair 5 100, nest [(3, 200)]]`,
which differs from the flat concatenation
`[pair 5 100, pair 3 200]` that the claim states. -/
theorem rtrv_append_not_flat :
    rtrv_code [(5, 100)] [[(3, 200)]] =
      [RElem.pair 5 100, RElem.nest [(3, 200)]] ∧
    rtrv_flat [(5, 100)] [[(3, 200)]] =
      [RElem.pair 5 100, RElem.pair 3 200] ∧
    rtrv_code [(5, 100)] [[(3, 200)]] ≠ rtrv_flat [(5, 100)] [[(3, 200)]] := by
  refine ⟨?_, ?_, ?_⟩ <;> decide

/-! ## `File.__init__` extension-chain walk -/

/-- The file-header fields `File.__init__` needs for its chain walk.  `attrs`
bundles, as one value, the identity/attribute fields its assertion loop
compares (`CRDT`, `CRTI`, `EFBK`, `EXDT`, `UCHA`, `SCHA`, `FFBY`, `FLEV`,
`FNAM`, `FNUM`, `FOWN`, `FPRO`, `FSEQ`, `FTYP`, `FVER`, `HIBK`, `PROG`,
`PROJ`, `RATT`, `RSIZ`, `RTYP`, `RVDT`, `RVNO`, `RVTI`, `UFAT`). -/
structure FHeader where
  FNUM : Nat
  EFNU : Nat
  RTRV : List (Nat × Nat)
  attrs : List Nat
deriving DecidableEq

/-- The loop of `File.__init__`:

    efnu = self.fh.EFNU
    while efnu != 0:
        h = idxf.fh( h.EFNU)        # local h is UNBOUND on the 1st iteration
        self.RTRV.append( h.RTRV)
        efnu = h.EFNU
        for id in (...): assert self.fh.__dict__[ id] == h.__dict__[ id]

The local `h` is embedded as `Option FHeader`, starting unbound (`none`);
reading it then is Python's `NameError`.  `fhGet` embeds `idxf.fh`. -/
def fileLoop (fhGet : Nat → Except Err FHeader) (primary : FHeader) :
    Nat → Option FHeader → Nat → List RElem → Except Err (List RElem)
  | _, _, 0, rtrv => .ok rtrv
  | 0, _, _, _ => .error .fuelOut
  | fuel + 1, hOpt, _, rtrv =>
      match hOpt with
      | none => .error .nameErr
      | some h₀ =>
          match fhGet h₀.EFNU with
          | .error e => .error e
          | .ok h =>
              if primary.attrs = h.attrs then
                fileLoop fhGet primary fuel (some h) h.EFNU (rtrv ++ [RElem.nest h.RTRV])
              else .error .assertFail

/-- `File.__init__`: start with the primary header's pointer pairs and walk
the extension chain. -/
def file_init (fhGet : Nat → Except Err FHeader) (primary : FHeader)
    (fuel : Nat) : Except Err (List RElem) :=
  fileLoop fhGet primary fuel none primary.EFNU
    (primary.RTRV.map (fun p => RElem.pair p.1 p.2))

/-- C3: whenever the primary header chains to an extension header
(`EFNU ≠ 0`), `File.__init__` raises `NameError` on its first loop iteration
— `idxf.fh( h.EFNU)` reads the local `h` before it is ever assigned (the
computed `efnu` is never used for the fetch), so no extension header is
fetched and no identity-field verification happens. -/
theorem file_init_name_error (fhGet : Nat → Except Err FHeader)
    (primary : FHeader) (fuel : Nat) (h1 : primary.EFNU ≠ 0) (h2 : 1 ≤ fuel) :
    file_init fhGet primary fuel = .error Err.nameErr := by
  rcases fuel with _ | fuel
  · omega
  · rcases hE : primary.EFNU with _ | e
    · exact absurd hE h1
    · simp [file_init, hE, fileLoop]

/-- Witness for C3 at a concrete primary header with `EFNU = 2`. -/
theorem file_init_name_error_witness :
    (FHeader.mk 7 2 [(1, 5)] []).EFNU ≠ 0 ∧
    file_init (fun _ => .error Err.shortRead) (FHeader.mk 7 2 [(1, 5)] []) 4 =
      .error Err.nameErr :=
  ⟨by decide,
    file_init_name_error (fun _ => .error Err.shortRead)
      (FHeader.mk 7 2 [(1, 5)] []) 4 (by decide) (by decide)⟩

/-! ## Retrieval-pointer decoding (`File_Header.__init__`, map area)

The source loop, with `i = self.USE` and `offset` at the start of `M.RTRV`:

    while i > 0:
        lbn = buf[ offset]; offset += 1
        cnt = buf[ offset]; offset += 1
        lbn = ( lbn << 16) + w2( buf[ offset:]); offset += 2
        i -= 2
        self.RTRV.extend( [ ( cnt + 1, lbn)])
    assert i == 0
    assert offset <= Block_SZ - 2

Note the first byte of each 4-byte group is the HIGH LBN byte and the second
is the block count.  `i` becomes negative when `USE` is odd, so it is
embedded as `Int`. -/

/-- The decoding loop body, structurally recursing on the number of
remaining loop iterations `k` (the wrapper below passes the exact iteration
count `⌈i/2⌉`, so the `k = 0` arm fires exactly when `i ≤ 0`).  Returns the
extent list, the final `i`, and the final `offset`. -/
def rtrvGoK (buf : Nat → Nat) : Nat → Nat → Int → List (Nat × Nat) × Int × Nat
  | 0, offset, i => ([], i, offset)
  | k + 1, offset, i =>
      if 0 < i then
        let lbnHigh := buf offset
        let cnt := buf (offset + 1)
        let lbn := lbnHigh * 65536 + w2f buf (offset + 2)
        let r := rtrvGoK buf k (offset + 4) (i - 2)
        ((cnt + 1, lbn) :: r.1, r.2.1, r.2.2)
      else ([], i, offset)

/-- The `while i > 0` decoding loop, entered with `i = USE` and running
`⌈i/2⌉` iterations (each iteration subtracts 2 from `i`). -/
def rtrvGo (buf : Nat → Nat) (offset : Nat) (i : Int) :
    List (Nat × Nat) × Int × Nat :=
  rtrvGoK buf ((i.toNat + 1) / 2) offset i

/-- The decoding loop plus the two trailing assertions (embedded as
`assertFail` on violation). -/
def decode_rtrv (buf : Nat → Nat) (offset : Nat) (use : Nat) :
    Except Err (List (Nat × Nat) × Nat) :=
  let r := rtrvGo buf offset (Int.ofNat use)
  if r.2.1 = 0 then
    if r.2.2 ≤ Block_SZ - 2 then .ok (r.1, r.2.2) else .error .assertFail
  else .error .assertFail

/-- The loop under the layout the claim states — count byte first, then high
LBN byte — which is NOT what the source does. -/
def rtrvGoClaimK (buf : Nat → Nat) : Nat → Nat → Int → List (Nat × Nat) × Int × Nat
  | 0, offset, i => ([], i, offset)
  | k + 1, offset, i =>
      if 0 < i then
        let cnt := buf offset
        let lbnHigh := buf (offset + 1)
        let lbn := lbnHigh * 65536 + w2f buf (offset + 2)
        let r := rtrvGoClaimK buf k (offset + 4) (i - 2)
        ((cnt + 1, lbn) :: r.1, r.2.1, r.2.2)
      else ([], i, offset)

/-- Decoding with the claim's stated byte order. -/
def decode_rtrv_claim (buf : Nat → Nat) (offset : Nat) (use : Nat) :
    Except Err (List (Nat × Nat) × Nat) :=
  let r := rtrvGoClaimK buf ((use + 1) / 2) offset (Int.ofNat use)
  if r.2.1 = 0 then
    if r.2.2 ≤ Block_SZ - 2 then .ok (r.1, r.2.2) else .error .assertFail
  else .error .assertFail

/-- A concrete 4-byte map-area group: bytes 1, 4, 100, 0. -/
def rtrvBufW : Nat → Nat := fun n => [1, 4, 100, 0].getD n 0

/-- C4 counterexample: on the group `1, 4, 100, 0` with `USE = 2` the source
decodes high-LBN byte 1 then count byte 4, emitting `(5, 1·2^16 + 100)`;
the claim's layout (count first, then high byte) would emit
`(2, 4·2^16 + 100)`.  The two disagree, so the claimed layout is not the
code's. -/
theorem rtrv_layout_counterexample :
    decode_rtrv rtrvBufW 0 2 = .ok ([(5, 65636)], 4) ∧
    decode_rtrv_claim rtrvBufW 0 2 = .ok ([(2, 262244)], 4) ∧
    ([((5 : Nat), (65636 : Nat))], (4 : Nat)) ≠ ([(2, 262244)], 4) := by
  refine ⟨?_, ?_, ?_⟩ <;> decide

/-- The extent sequence the amended claim describes: `n` consecutive 4-byte
groups starting at `offset`, each read as (high LBN byte, count byte, low
LBN word) and emitted as `(count + 1, high·2^16 + low)`. -/
def extentsAt (buf : Nat → Nat) (offset : Nat) : Nat → List (Nat × Nat)
  | 0 => []
  | n + 1 =>
      (buf (offset + 1) + 1, buf offset * 65536 + w2f buf (offset + 2)) ::
        extentsAt buf (offset + 4) n

lemma rtrvGoK_even (buf : Nat → Nat) :
    ∀ (n : Nat) (offset : Nat),
      rtrvGoK buf n offset (Int.ofNat (2 * n)) =
        (extentsAt buf offset n, 0, offset + 4 * n) := by
  intro n
  induction n with
  | zero =>
    intro offset
    simp [rtrvGoK, extentsAt]
  | succ m ih =>
    intro offset
    have hpos : (0 : Int) < Int.ofNat (2 * (m + 1)) := by
      simp only [Int.ofNat_eq_natCast]
      omega
    have harg : Int.ofNat (2 * (m + 1)) - 2 = Int.ofNat (2 * m) := by
      simp only [Int.ofNat_eq_natCast]
      push_cast
      ring
    rw [rtrvGoK, if_pos hpos]
    simp only [harg, ih (offset + 4), extentsAt]
    have h4 : offset + 4 + 4 * m = offset + 4 * (m + 1) := by omega
    rw [h4]

lemma rtrvGoK_odd (buf : Nat → Nat) :
    ∀ (n : Nat) (offset : Nat),
      (rtrvGoK buf (n + 1) offset (Int.ofNat (2 * n + 1))).2.1 = -1 := by
  intro n
  induction n with
  | zero =>
    intro offset
    simp [rtrvGoK]
  | succ m ih =>
    intro offset
    have hpos : (0 : Int) < Int.ofNat (2 * (m + 1) + 1) := by
      simp only [Int.ofNat_eq_natCast]
      omega
    have harg : Int.ofNat (2 * (m + 1) + 1) - 2 = Int.ofNat (2 * m + 1) := by
      simp only [Int.ofNat_eq_natCast]
      push_cast
      ring
    rw [rtrvGoK, if_pos hpos]
    simp only [harg]
    exact ih (offset + 4)

/-- C4 (amended): the map-area decoding loop consumes, while map words
remain, 4-byte groups laid out as (1-byte `high LBN byte`, 1-byte
`block count`, 2-byte low LBN word), emitting `(stored count + 1, high·2^16 +
low)` per group; it consumes exactly `USE` map words (final offset
`offset + 2·USE` when `USE` is even and the trailing-offset assertion holds),
and an odd `USE` leaves the word counter at −1, failing the `assert i == 0`
corruption check. -/
theorem rtrv_decode_amended (buf : Nat → Nat) (offset : Nat) (use : Nat) :
    (use % 2 = 0 → offset + 2 * use ≤ Block_SZ - 2 →
      decode_rtrv buf offset use =
        .ok (extentsAt buf offset (use / 2), offset + 2 * use)) ∧
    (use % 2 = 1 → decode_rtrv buf offset use = .error Err.assertFail) := by
  constructor
  · intro heven hoff
    obtain ⟨n, hn⟩ : ∃ n, use = 2 * n := ⟨use / 2, by omega⟩
    subst hn
    have hk : ((Int.ofNat (2 * n)).toNat + 1) / 2 = n := by
      simp only [Int.ofNat_eq_natCast, Int.toNat_natCast]
      omega
    rw [decode_rtrv, rtrvGo, hk, rtrvGoK_even buf n offset]
    have h2 : 2 * n / 2 = n := by omega
    have h3 : offset + 4 * n = offset + 2 * (2 * n) := by ring
    rw [← h3] at hoff
    simp [h2, ← h3, hoff]
  · intro hodd
    obtain ⟨n, hn⟩ : ∃ n, use = 2 * n + 1 := ⟨use / 2, by omega⟩
    subst hn
    have hk : ((Int.ofNat (2 * n + 1)).toNat + 1) / 2 = n + 1 := by
      simp only [Int.ofNat_eq_natCast, Int.toNat_natCast]
      omega
    rw [decode_rtrv, rtrvGo, hk]
    have := rtrvGoK_odd buf n offset
    simp only [this]
    norm_num

/-- Witness for C4: even `USE = 2` decodes the single group of `rtrvBufW`;
odd `USE = 1` trips the corruption assertion. -/
theorem rtrv_decode_amended_witness :
    ((2 : Nat) % 2 = 0 ∧ 0 + 2 * 2 ≤ Block_SZ - 2 ∧
      decode_rtrv rtrvBufW 0 2 =
        .ok (extentsAt rtrvBufW 0 (2 / 2), 0 + 2 * 2)) ∧
    ((1 : Nat) % 2 = 1 ∧ decode_rtrv rtrvBufW 0 1 = .error Err.assertFail) :=
  ⟨⟨by decide, by decide,
      (rtrv_decode_amended rtrvBufW 0 2).1 (by decide) (by decide)⟩,
    ⟨by decide, (rtrv_decode_amended rtrvBufW 0 1).2 (by decide)⟩⟩

/-! ## Home block (`Home_Block.get_hb`, `checksum`, `wstr`) -/

/-- Sum of the first `n` 16-bit words of the buffer: the loop of
`checksum( buf, offset)` runs `for i in range( 0, offset, 2)`, i.e. over the
first `offset / 2` words. -/
def sumWords (buf : Nat → Nat) : Nat → Nat
  | 0 => 0
  | n + 1 => sumWords buf n + w2f buf (2 * n)

/-- Source `checksum( buf, offset)`: sum the preceding words, truncate to 16
bits, compare with the word stored at `offset`; raise `Invalid_Block` on
mismatch, return the computed sum otherwise. -/
def checksumM (buf : Nat → Nat) (offset : Nat) : Except Err Nat :=
  let csum := sumWords buf (offset / 2) % 65536
  if csum = w2f buf offset then .ok csum else .error .invalidBlock

/-- Source `wstr( buf, maxlen)` at byte `start`: take `maxlen` bytes,
truncate at the first null, decode as ASCII (`UnicodeDecodeError`, i.e.
`unicodeErr`, when a kept byte is ≥ 128). -/
def wstrM (buf : Nat → Nat) (start maxlen : Nat) : Except Err (List Nat) :=
  let bytes := (List.range maxlen).map (fun i => buf (start + i))
  let tmp := match bytes.findIdx? (fun b => b == 0) with
             | some e => bytes.take e
             | none => bytes
  if tmp.all (fun b => decide (b < 128)) then .ok tmp else .error .unicodeErr

/-- The direct `buf[ 47 : 54].decode( encoding='ascii')` used for `REVD`
(no null-truncation; a null byte itself is valid ASCII). -/
def decodeAsciiM (buf : Nat → Nat) (start len : Nat) : Except Err (List Nat) :=
  let bytes := (List.range len).map (fun i => buf (start + i))
  if bytes.all (fun b => decide (b < 128)) then .ok bytes else .error .unicodeErr

/-- The fields `Home_Block.get_hb` populates, in source order:
IBSZ, IBLB, FMAX, SBCL, DVTY, VLEV, VNAM, VOWN, PROG, PROJ, VPRO, VCHA,
DFPR, WISZ, FIEX, LRUC, REVD, REVC, CHK1, VDAT, PKSR, INDN, INDO, INDF,
CHK2 (string fields kept as their byte lists). -/
structure Home_Block where
  IBSZ : Nat
  IBLB : Nat
  FMAX : Nat
  SBCL : Nat
  DVTY : Nat
  VLEV : Nat
  VNAM : List Nat
  VOWN : Nat
  PROG : Nat
  PROJ : Nat
  VPRO : Nat
  VCHA : Nat
  DFPR : Nat
  WISZ : Nat
  FIEX : Nat
  LRUC : Nat
  REVD : List Nat
  REVC : Nat
  CHK1 : Nat
  VDAT : List Nat
  PKSR : Nat
  INDN : List Nat
  INDO : List Nat
  INDF : List Nat
  CHK2 : Nat
deriving DecidableEq

/-- Source `Home_Block.get_hb( buf)` over a 512-byte buffer: fixed-offset
field extraction in source order (IBSZ at 0, IBLB at 2, FMAX at 6, SBCL at
8, DVTY at 10, VLEV at 12, VNAM at 14, VOWN at 30, VPRO at 32, VCHA at 34,
DFPR at 36, WISZ/FIEX/LRUC at 44-46, REVD at 47, REVC at 54, first checksum
over words 0..56 stored at 58, VDAT at 60, PKSR at 456, INDN/INDO/INDF at
472/484/496, second checksum over words 0..508 stored at 510), then the
final geometry/structure-level validation. -/
def get_hb (buf : Nat → Nat) : Except Err Home_Block :=
  match wstrM buf 14 12 with
  | .error e => .error e
  | .ok vnam =>
  match decodeAsciiM buf 47 7 with
  | .error e => .error e
  | .ok revd =>
  match checksumM buf 58 with
  | .error e => .error e
  | .ok chk1 =>
  match wstrM buf 60 14 with
  | .error e => .error e
  | .ok vdat =>
  match wstrM buf 472 12 with
  | .error e => .error e
  | .ok indn =>
  match wstrM buf 484 12 with
  | .error e => .error e
  | .ok indo =>
  match wstrM buf 496 12 with
  | .error e => .error e
  | .ok indf =>
  match checksumM buf 510 with
  | .error e => .error e
  | .ok chk2 =>
  if w2f buf 0 = 0 ∨ w4f buf 2 = 0 ∨ w2f buf 6 = 0 ∨ w2f buf 8 ≠ 1 ∨
      w2f buf 10 ≠ 0 ∨ (w2f buf 12 ≠ 0o401 ∧ w2f buf 12 ≠ 0o402)
  then .error .invalidBlock
  else .ok ⟨w2f buf 0, w4f buf 2, w2f buf 6, w2f buf 8, w2f buf 10,
    w2f buf 12, vnam, w2f buf 30, w2f buf 30 % 256, w2f buf 30 / 256,
    w2f buf 32, w2f buf 34, w2f buf 36, buf 44, buf 45, buf 46, revd,
    w2f buf 54, chk1, vdat, w4f buf 456, indn, indo, indf, chk2⟩

/-- The disjunction of validation-failure conditions the claim lists:
zero bitmap size / bitmap LBN / max-file-count, cluster factor ≠ 1, device
type ≠ 0, structural level outside {0o401, 0o402}, or either checksum word
differing from the 16-bit-truncated sum of all preceding words. -/
def hb_bad (buf : Nat → Nat) : Prop :=
  w2f buf 0 = 0 ∨ w4f buf 2 = 0 ∨ w2f buf 6 = 0 ∨ w2f buf 8 ≠ 1 ∨
  w2f buf 10 ≠ 0 ∨ (w2f buf 12 ≠ 0o401 ∧ w2f buf 12 ≠ 0o402) ∨
  sumWords buf 29 % 65536 ≠ w2f buf 58 ∨
  sumWords buf 255 % 65536 ≠ w2f buf 510

instance (buf : Nat → Nat) : Decidable (hb_bad buf) := by
  unfold hb_bad
  infer_instance

/-- Whether an `Except` is a success. -/
def isOkE {α : Type} (e : Except Err α) : Bool :=
  match e with
  | .ok _ => true
  | .error _ => false

/-- All six ASCII-decoded string fields of the home block decode
successfully (every kept byte < 128). -/
def ascii_clean (buf : Nat → Nat) : Prop :=
  isOkE (wstrM buf 14 12) = true ∧ isOkE (decodeAsciiM buf 47 7) = true ∧
  isOkE (wstrM buf 60 14) = true ∧ isOkE (wstrM buf 472 12) = true ∧
  isOkE (wstrM buf 484 12) = true ∧ isOkE (wstrM buf 496 12) = true

instance (buf : Nat → Nat) : Decidable (ascii_clean buf) := by
  unfold ascii_clean
  infer_instance

lemma isOkE_ok {α : Type} {e : Except Err α} (h : isOkE e = true) :
    ∃ v, e = .ok v := by
  cases e with
  | ok v => exact ⟨v, rfl⟩
  | error err => simp [isOkE] at h

/-- A buffer that is all zero except byte 14 (the first volume-name byte),
set to the non-ASCII value 255. -/
def hbBufCX : Nat → Nat := fun n => if n = 14 then 255 else 0

/-- C6 counterexample: on `hbBufCX` the validation condition "storage-bitmap
cluster factor ≠ 1" holds (the SBCL word is 0), so the claim requires a
structural-validation failure; but `get_hb` raises `UnicodeDecodeError`
while decoding the volume name (byte 255 at offset 14) before any
structural check runs, so parsing does not fail with a structural-validation
error. -/
theorem home_block_ascii_counterexample :
    get_hb hbBufCX = .error Err.unicodeErr ∧
    get_hb hbBufCX ≠ .error Err.invalidBlock ∧
    w2f hbBufCX 8 ≠ 1 := by
  refine ⟨?_, ?_, ?_⟩ <;> decide

/-- C6 (amended): for a candidate block whose six ASCII string fields all
decode (every kept byte < 128), home-block parsing fails with the
structural-validation error (`Invalid_Block`) exactly when one of the
claimed conditions holds: bitmap size 0, bitmap LBN 0, max-file-count 0,
cluster factor ≠ 1, device type ≠ 0, structural level outside
{0o401, 0o402}, or either checksum word differing from the 16-bit-truncated
sum of all preceding little-endian words.  (A buffer with a non-ASCII byte
in a string field instead fails earlier with a decode error.) -/
theorem home_block_validation_amended (buf : Nat → Nat)
    (hA : ascii_clean buf) :
    get_hb buf = .error Err.invalidBlock ↔ hb_bad buf := by
  obtain ⟨h1, h2, h3, h4, h5, h6⟩ := hA
  obtain ⟨v1, e1⟩ := isOkE_ok h1
  obtain ⟨v2, e2⟩ := isOkE_ok h2
  obtain ⟨v3, e3⟩ := isOkE_ok h3
  obtain ⟨v4, e4⟩ := isOkE_ok h4
  obtain ⟨v5, e5⟩ := isOkE_ok h5
  obtain ⟨v6, e6⟩ := isOkE_ok h6
  have c58 : checksumM buf 58 =
      if sumWords buf 29 % 65536 = w2f buf 58
      then .ok (sumWords buf 29 % 65536) else .error .invalidBlock := by
    norm_num [checksumM]
  have c510 : checksumM buf 510 =
      if sumWords buf 255 % 65536 = w2f buf 510
      then .ok (sumWords buf 255 % 65536) else .error .invalidBlock := by
    norm_num [checksumM]
  simp only [get_hb, e1, e2, e3, e4, e5, e6, c58, c510]
  by_cases hc1 : sumWords buf 29 % 65536 = w2f buf 58
  · simp only [if_pos hc1]
    by_cases hc2 : sumWords buf 255 % 65536 = w2f buf 510
    · simp only [if_pos hc2]
      by_cases hf : w2f buf 0 = 0 ∨ w4f buf 2 = 0 ∨ w2f buf 6 = 0 ∨
        w2f buf 8 ≠ 1 ∨ w2f buf 10 ≠ 0 ∨
        (w2f buf 12 ≠ 0o401 ∧ w2f buf 12 ≠ 0o402)
      · have hbad : hb_bad buf := by unfold hb_bad; tauto
        simp only [if_pos hf]
        simp [hbad]
      · have hnbad : ¬ hb_bad buf := by unfold hb_bad; tauto
        simp only [if_neg hf]
        simp [hnbad]
    · have hbad : hb_bad buf := by
        unfold hb_bad
        exact Or.inr (Or.inr (Or.inr (Or.inr (Or.inr (Or.inr (Or.inr hc2))))))
      simp only [if_neg hc2]
      simp [hbad]
  · have hbad : hb_bad buf := by
      unfold hb_bad
      exact Or.inr (Or.inr (Or.inr (Or.inr (Or.inr (Or.inr (Or.inl hc1))))))
    simp only [if_neg hc1]
    simp [hbad]

/-- Witness for C6 at the all-zero buffer: ASCII-clean, bad (bitmap size 0),
and rejected with the structural-validation error. -/
theorem home_block_validation_amended_witness :
    ascii_clean (fun _ => 0) ∧ hb_bad (fun _ => 0) ∧
    get_hb (fun _ => 0) = .error Err.invalidBlock :=
  ⟨by decide, by decide,
    (home_block_validation_amended (fun _ => 0) (by decide)).mpr (by decide)⟩

/-! ## File (logical view): `File.read_vb`, `File.data_hash` -/

/-- The fields of a constructed `File` object its methods read: the combined
retrieval-pointer list and, from its (primary) header, the end-of-file block
`EFBK`, first free byte `FFBY`, record size `RSIZ`, file type `FTYP` and
version `FVER`. -/
structure FileM where
  RTRV : List (Nat × Nat)
  EFBK : Nat
  FFBY : Nat
  RSIZ : Nat
  FTYP : List Char
  FVER : Nat
deriving DecidableEq

/-- Source `File.read_vb( vbn)`: resolve the virtual block through the
retrieval pointers (§C1's loop), then read that logical block. -/
def read_vb (f : FileM) (img : List Nat) (vbn : Nat) : Except Err (List Nat) :=
  match resolve f.RTRV vbn with
  | none => .error .indexErr
  | some lbn => read_lbn img lbn

/-- Source `File.is_dir()`: type decodes to `"DIR"` and version is 1. -/
def is_dir (f : FileM) : Bool :=
  decide (f.FTYP = "DIR".toList ∧ f.FVER = 1)

/-- The `last_vbn_used` computation shared by `data_hash` and
`enumerate_dirent`: `EFBK`, minus one when `FFBY == 0`. -/
def last_vbn_used (f : FileM) : Nat :=
  if f.FFBY = 0 then f.EFBK - 1 else f.EFBK

/-- The `data_hash` loop over the listed virtual block numbers, threading
the byte count and the byte sequence fed to the SHA-256 state (the hash
input stands for the digest: the source's `m.update( vb)` calls determine
it byte for byte). -/
def dhGo (f : FileM) (img : List Nat) :
    List Nat → Nat → List Nat → Except Err (Nat × List Nat)
  | [], len, acc => .ok (len, acc)
  | vbn :: rest, len, acc =>
      match read_vb f img vbn with
      | .error e => .error e
      | .ok vb =>
          if vbn = f.EFBK then
            dhGo f img rest (len + f.FFBY) (acc ++ vb.take f.FFBY)
          else
            dhGo f img rest (len + Block_SZ) (acc ++ vb)

/-- Source `File.data_hash()`: iterate `for vbn in range( 1, last + 1)`,
truncating the EOF block to `FFBY` bytes, returning the total length and
the hashed byte sequence. -/
def data_hash (f : FileM) (img : List Nat) : Except Err (Nat × List Nat) :=
  dhGo f img (List.range' 1 (last_vbn_used f)) 0 []

/-- Reading `n` consecutive virtual blocks starting at `lo`, concatenated
(the claim's "virtual blocks 1 through E−1 in full"). -/
def readRange (f : FileM) (img : List Nat) : Nat → Nat → Except Err (List Nat)
  | _, 0 => .ok []
  | lo, n + 1 =>
      match read_vb f img lo with
      | .error e => .error e
      | .ok b =>
          match readRange f img (lo + 1) n with
          | .error e => .error e
          | .ok rest => .ok (b ++ rest)

/-- The claim's description of the digest: blocks 1..E−1 in full, plus the
first `FFBY` bytes of block E when `FFBY ≠ 0` (block E excluded entirely
when `FFBY = 0`), with total length `512·(E−1) + FFBY`. -/
def data_hash_spec (f : FileM) (img : List Nat) : Except Err (Nat × List Nat) :=
  match readRange f img 1 (f.EFBK - 1) with
  | .error e => .error e
  | .ok bs =>
      if f.FFBY = 0 then .ok (Block_SZ * (f.EFBK - 1), bs)
      else
        match read_vb f img f.EFBK with
        | .error e => .error e
        | .ok b => .ok (Block_SZ * (f.EFBK - 1) + f.FFBY, bs ++ b.take f.FFBY)

lemma dhGo_cons (f : FileM) (img : List Nat) (vbn : Nat) (rest : List Nat)
    (len : Nat) (acc : List Nat) :
    dhGo f img (vbn :: rest) len acc =
      match read_vb f img vbn with
      | .error e => .error e
      | .ok vb =>
          if vbn = f.EFBK then
            dhGo f img rest (len + f.FFBY) (acc ++ vb.take f.FFBY)
          else dhGo f img rest (len + Block_SZ) (acc ++ vb) := rfl

lemma readRange_succ (f : FileM) (img : List Nat) (lo n : Nat) :
    readRange f img lo (n + 1) =
      match read_vb f img lo with
      | .error e => .error e
      | .ok b =>
          match readRange f img (lo + 1) n with
          | .error e => .error e
          | .ok rest => .ok (b ++ rest) := rfl

lemma dhGo_nofinal (f : FileM) (img : List Nat) :
    ∀ (n vbn len : Nat) (acc : List Nat), vbn + n = f.EFBK →
      dhGo f img (List.range' vbn n) len acc =
        match readRange f img vbn n with
        | .error e => .error e
        | .ok bs => .ok (len + Block_SZ * n, acc ++ bs) := by
  intro n
  induction n with
  | zero =>
    intro vbn len acc _
    simp [dhGo, readRange]
  | succ m ih =>
    intro vbn len acc hsum
    rw [List.range'_succ, dhGo_cons, readRange_succ]
    cases hv : read_vb f img vbn with
    | error e => rfl
    | ok vb =>
      dsimp only
      have hne : vbn ≠ f.EFBK := by omega
      rw [if_neg hne]
      rw [ih (vbn + 1) (len + Block_SZ) (acc ++ vb) (by omega)]
      cases hR : readRange f img (vbn + 1) m with
      | error e => rfl
      | ok bs =>
        dsimp only
        have hlen : len + Block_SZ + Block_SZ * m = len + Block_SZ * (m + 1) := by
          ring
        rw [hlen, List.append_assoc]

lemma dhGo_final (f : FileM) (img : List Nat) :
    ∀ (n vbn len : Nat) (acc : List Nat), vbn + n = f.EFBK →
      dhGo f img (List.range' vbn (n + 1)) len acc =
        match readRange f img vbn n with
        | .error e => .error e
        | .ok bs =>
            match read_vb f img f.EFBK with
            | .error e => .error e
            | .ok b =>
                .ok (len + Block_SZ * n + f.FFBY, acc ++ bs ++ b.take f.FFBY) := by
  intro n
  induction n with
  | zero =>
    intro vbn len acc hsum
    have hvb : vbn = f.EFBK := by omega
    subst hvb
    rw [List.range'_succ]
    rw [dhGo_cons]
    show _ =
      match read_vb f img f.EFBK with
      | .error e => .error e
      | .ok b => .ok (len + Block_SZ * 0 + f.FFBY, acc ++ [] ++ b.take f.FFBY)
    cases hv : read_vb f img f.EFBK with
    | error e => rfl
    | ok vb =>
      dsimp only
      rw [if_pos rfl]
      simp [dhGo]
  | succ m ih =>
    intro vbn len acc hsum
    rw [List.range'_succ, dhGo_cons, readRange_succ]
    cases hv : read_vb f img vbn with
    | error e => rfl
    | ok vb =>
      dsimp only
      have hne : vbn ≠ f.EFBK := by omega
      rw [if_neg hne]
      rw [ih (vbn + 1) (len + Block_SZ) (acc ++ vb) (by omega)]
      cases hR : readRange f img (vbn + 1) m with
      | error e => rfl
      | ok bs =>
        dsimp only
        cases hB : read_vb f img f.EFBK with
        | error e => rfl
        | ok b =>
          dsimp only
          have hlen : len + Block_SZ + Block_SZ * m + f.FFBY =
              len + Block_SZ * (m + 1) + f.FFBY := by ring
          rw [hlen]
          simp [List.append_assoc]

/-- C7: for every file with `EFBK ≥ 1` and `FFBY ≤ 512`, `data_hash` feeds
the hash, in order, virtual blocks 1..EFBK−1 in full plus the first `FFBY`
bytes of block EFBK when `FFBY ≠ 0` (blocks 1..EFBK−1 only when
`FFBY = 0`), and returns total length `512·(EFBK−1) + FFBY` with the digest
input being exactly those bytes — i.e. it agrees with the claim's
description `data_hash_spec`, errors included. -/
theorem data_hash_correct (f : FileM) (img : List Nat)
    (hE : 1 ≤ f.EFBK) (hFle : f.FFBY ≤ Block_SZ) :
    data_hash f img = data_hash_spec f img := by
  by_cases hF0 : f.FFBY = 0
  · rw [data_hash, data_hash_spec, last_vbn_used, if_pos hF0]
    rw [dhGo_nofinal f img (f.EFBK - 1) 1 0 [] (by omega)]
    cases hR : readRange f img 1 (f.EFBK - 1) with
    | error e => rfl
    | ok bs =>
      dsimp only
      rw [if_pos hF0]
      simp
  · rw [data_hash, data_hash_spec, last_vbn_used, if_neg hF0]
    have hsplit : List.range' 1 f.EFBK = List.range' 1 ((f.EFBK - 1) + 1) := by
      congr 1
      omega
    rw [hsplit, dhGo_final f img (f.EFBK - 1) 1 0 [] (by omega)]
    cases hR : readRange f img 1 (f.EFBK - 1) with
    | error e => rfl
    | ok bs =>
      dsimp only
      rw [if_neg hF0]
      cases hB : read_vb f img f.EFBK with
      | error e => rfl
      | ok b => simp

/-- Witness for C7 at a concrete one-block file over a concrete image. -/
theorem data_hash_correct_witness :
    1 ≤ (FileM.mk [(2, 0)] 1 3 16 [] 0).EFBK ∧
    (FileM.mk [(2, 0)] 1 3 16 [] 0).FFBY ≤ Block_SZ ∧
    data_hash (FileM.mk [(2, 0)] 1 3 16 [] 0) (List.replicate 1024 7) =
      data_hash_spec (FileM.mk [(2, 0)] 1 3 16 [] 0) (List.replicate 1024 7) :=
  ⟨by decide, by decide,
    data_hash_correct (FileM.mk [(2, 0)] 1 3 16 [] 0) (List.replicate 1024 7)
      (by decide) (by decide)⟩

/-! ## Directory entries (`Dir_Ent`, `File.enumerate_dirent`) -/

/-- Source `w2` applied to a slice of a block held as a byte list. -/
def w2l (b : List Nat) (off : Nat) : Nat :=
  b.getD off 0 + (b.getD (off + 1) 0) * 256

/-- Source `Dir_Ent`: file number, sequence number, relative volume number,
RAD50 name (3 words), RAD50 type (1 word), version. -/
structure Dir_Ent where
  FNUM : Nat
  FSEQ : Nat
  FRVN : Nat
  FNAM : List Char
  FTYP : List Char
  FVER : Nat
deriving DecidableEq

/-- Source `Dir_Ent.__init__( buf)` at byte offset `off` of a block. -/
def parse_dirent (vb : List Nat) (off : Nat) : Dir_Ent :=
  ⟨w2l vb off, w2l vb (off + 2), w2l vb (off + 4),
   decode_words [w2l vb (off + 6), w2l vb (off + 8), w2l vb (off + 10)],
   decode_words [w2l vb (off + 12)], w2l vb (off + 14)⟩

/-- Source `Dir_Ent.is_valid()`: nonzero file number. -/
def is_valid (de : Dir_Ent) : Bool :=
  de.FNUM != 0

/-- The offsets of Python `range( 0, Block_SZ, rsz)` for `rsz ≥ 1`. -/
def offsList (rsz : Nat) : List Nat :=
  List.range' 0 ((Block_SZ + rsz - 1) / rsz) rsz

/-- The inner loop of `enumerate_dirent` over one block's record offsets:
break once the EOF block's first-free-byte offset is reached, otherwise
parse a record and yield it when valid. -/
def scanOffs (f : FileM) (vbn : Nat) (vb : List Nat) : List Nat → List Dir_Ent
  | [] => []
  | off :: rest =>
      if vbn = f.EFBK ∧ f.FFBY ≤ off then []
      else
        if is_valid (parse_dirent vb off) then
          parse_dirent vb off :: scanOffs f vbn vb rest
        else scanOffs f vbn vb rest

/-- The same scan without the validity filter: every record the loop parses
before the break, in order. -/
def scanOffsRaw (f : FileM) (vbn : Nat) (vb : List Nat) : List Nat → List Dir_Ent
  | [] => []
  | off :: rest =>
      if vbn = f.EFBK ∧ f.FFBY ≤ off then []
      else parse_dirent vb off :: scanOffsRaw f vbn vb rest

/-- The outer loop of `enumerate_dirent` over the used virtual blocks. -/
def dirGo (f : FileM) (img : List Nat) : List Nat → Except Err (List Dir_Ent)
  | [] => .ok []
  | vbn :: rest =>
      match read_vb f img vbn with
      | .error e => .error e
      | .ok vb =>
          match dirGo f img rest with
          | .error e => .error e
          | .ok des => .ok (scanOffs f vbn vb (offsList f.RSIZ) ++ des)

/-- Source `File.enumerate_dirent()`: iterate the used blocks (`EFBK`, minus
one when `FFBY = 0`), scanning each in strides of the directory header's
record size (`range` with step 0 raises `ValueError`), collecting the
yielded entries in order. -/
def enumerate_dirent (f : FileM) (img : List Nat) : Except Err (List Dir_Ent) :=
  if f.RSIZ = 0 then .error .valueErr
  else dirGo f img (List.range' 1 (last_vbn_used f))

/-- All records the scan visits (same strides, same stopping rule), without
the file-number filter. -/
def dirGoRaw (f : FileM) (img : List Nat) : List Nat → Except Err (List Dir_Ent)
  | [] => .ok []
  | vbn :: rest =>
      match read_vb f img vbn with
      | .error e => .error e
      | .ok vb =>
          match dirGoRaw f img rest with
          | .error e => .error e
          | .ok des => .ok (scanOffsRaw f vbn vb (offsList f.RSIZ) ++ des)

/-- `enumerate_dirent` without the validity filter. -/
def enumerate_dirent_raw (f : FileM) (img : List Nat) :
    Except Err (List Dir_Ent) :=
  if f.RSIZ = 0 then .error .valueErr
  else dirGoRaw f img (List.range' 1 (last_vbn_used f))

lemma scanOffs_filter (f : FileM) (vbn : Nat) (vb : List Nat) :
    ∀ offs : List Nat,
      scanOffs f vbn vb offs = (scanOffsRaw f vbn vb offs).filter is_valid := by
  intro offs
  induction offs with
  | nil => simp [scanOffs, scanOffsRaw]
  | cons off rest ih =>
    by_cases hstop : vbn = f.EFBK ∧ f.FFBY ≤ off
    · simp [scanOffs, scanOffsRaw, hstop]
    · by_cases hval : is_valid (parse_dirent vb off)
      · simp [scanOffs, scanOffsRaw, hstop, hval, ih]
      · simp [scanOffs, scanOffsRaw, hstop, hval, ih]

lemma dirGo_filter (f : FileM) (img : List Nat) :
    ∀ vbns : List Nat,
      dirGo f img vbns = Except.map (List.filter is_valid) (dirGoRaw f img vbns) := by
  intro vbns
  induction vbns with
  | nil => simp [dirGo, dirGoRaw, Except.map]
  | cons vbn rest ih =>
    simp only [dirGo, dirGoRaw]
    cases hv : read_vb f img vbn with
    | error e => simp [Except.map]
    | ok vb =>
      dsimp only
      rw [ih]
      cases hR : dirGoRaw f img rest with
      | error e => simp [Except.map]
      | ok des =>
        simp [Except.map, scanOffs_filter, List.filter_append]

/-- A concrete directory file: one used block, record size 16, first free
byte 32 on EOF block 1. -/
def dirExFile : FileM :=
  FileM.mk [(1, 0)] 1 32 16 "DIR".toList 1

/-- A concrete directory block: the record at offset 0 has file number 0 (an
empty slot), the record at offset 16 has file number 5, and the record at
offset 32 (at the first-free-byte boundary) has file number 9 but must not
be scanned. -/
def dirExImg : List Nat :=
  (List.range 512).map (fun i =>
    if i = 16 then 5 else if i = 18 then 1 else if i = 30 then 7 else
    if i = 32 then 9 else 0)

set_option maxRecDepth 8000 in
/-- C9: directory enumeration scans each used virtual block in strides of
the directory header's record size, stops on the EOF block at the
first-free-byte offset, and yields exactly the scanned records with nonzero
file number (file number 0 marks an empty slot and is skipped; nonzero
records are yielded verbatim): the yielded list is the validity-filtered
scan, errors included; concretely, the example block yields only the
file-number-5 record, skipping the empty slot at offset 0 and never
reaching offset 32. -/
theorem enumerate_dirent_filter :
    (∀ (f : FileM) (img : List Nat),
      enumerate_dirent f img =
        Except.map (List.filter is_valid) (enumerate_dirent_raw f img)) ∧
    enumerate_dirent dirExFile dirExImg =
      .ok [Dir_Ent.mk 5 1 0 (List.replicate 9 (Char.ofNat 32))
        (List.replicate 3 (Char.ofNat 32)) 7] := by
  constructor
  · intro f img
    rw [enumerate_dirent, enumerate_dirent_raw]
    by_cases h0 : f.RSIZ = 0
    · simp [h0, Except.map]
    · simp only [h0, if_neg]
      exact dirGo_filter f img (List.range' 1 (last_vbn_used f))
  · decide

/-! ## Recursive listing (`recursive_listing`)

For each valid entry the source opens the referenced File, digests it, and
recurses only under `if f.is_dir() and de.FNUM != file_num`.  The
construction of a `File` from a file number is abstracted as the environment
function `openF` (its internals are modelled separately above), and the
model returns the list of (parent file number, child file number) recursion
edges; recursion depth is bounded by explicit fuel (`fuelOut` is a model
artifact, not source behaviour). -/

/-- The per-entry loop of `recursive_listing`: digest the referenced file,
then recurse when the guard holds.  `dataH`/`isD` give the opened file's
digest and directory test; `rc` is the recursive call bound to the remaining
fuel. -/
def recEntries (dataH : Nat → Except Err (Nat × List Nat)) (isD : Nat → Bool)
    (rc : Nat → Except Err (List (Nat × Nat))) (p : Nat) :
    List Dir_Ent → Except Err (List (Nat × Nat))
  | [] => .ok []
  | de :: rest =>
      match dataH de.FNUM with
      | .error e => .error e
      | .ok _ =>
          if isD de.FNUM = true ∧ de.FNUM ≠ p then
            match rc de.FNUM with
            | .error e => .error e
            | .ok sub =>
                match recEntries dataH isD rc p rest with
                | .error e => .error e
                | .ok more => .ok ((p, de.FNUM) :: (sub ++ more))
          else recEntries dataH isD rc p rest

/-- `recursive_listing( idxf, dir_name, file_num)` as the list of recursion
edges it performs: enumerate the directory's entries, then process them with
the per-entry loop. -/
def recCalls (openF : Nat → FileM) (img : List Nat) :
    Nat → Nat → Except Err (List (Nat × Nat))
  | 0, _ => .error .fuelOut
  | fuel + 1, p =>
      match enumerate_dirent (openF p) img with
      | .error e => .error e
      | .ok des =>
          recEntries (fun n => data_hash (openF n) img)
            (fun n => is_dir (openF n))
            (fun n => recCalls openF img fuel n) p des

lemma recEntries_guard (dataH : Nat → Except Err (Nat × List Nat))
    (isD : Nat → Bool) (rc : Nat → Except Err (List (Nat × Nat))) (p : Nat)
    (hrc : ∀ q es, rc q = .ok es → ∀ e ∈ es, e.1 ≠ e.2 ∧ isD e.2 = true) :
    ∀ (des : List Dir_Ent) (es : List (Nat × Nat)),
      recEntries dataH isD rc p des = .ok es →
      ∀ e ∈ es, e.1 ≠ e.2 ∧ isD e.2 = true := by
  intro des
  induction des with
  | nil =>
    intro es h e he
    simp only [recEntries] at h
    cases h
    simp at he
  | cons de rest ih =>
    intro es h e he
    simp only [recEntries] at h
    cases hd : dataH de.FNUM with
    | error err => rw [hd] at h; cases h
    | ok v =>
      rw [hd] at h
      dsimp only at h
      by_cases hg : isD de.FNUM = true ∧ de.FNUM ≠ p
      · rw [if_pos hg] at h
        cases hsub : rc de.FNUM with
        | error err => rw [hsub] at h; cases h
        | ok sub =>
          rw [hsub] at h
          dsimp only at h
          cases hmore : recEntries dataH isD rc p rest with
          | error err => rw [hmore] at h; cases h
          | ok more =>
            rw [hmore] at h
            cases h
            rcases List.mem_cons.mp he with hpe | htail
            · subst hpe
              exact ⟨fun c => hg.2 c.symm, hg.1⟩
            · rcases List.mem_append.mp htail with hs | hm
              · exact hrc de.FNUM sub hsub e hs
              · exact ih more hmore e hm
      · rw [if_neg hg] at h
        exact ih es h e he

/-- C8: every recursion edge `(parent, child)` the lister performs satisfies
the guard — the child's File is a directory and its file number differs from
the directory currently being listed — so an entry pointing back at the
currently-open directory (the MFD's self-reference) is never recursed
into. -/
theorem recursion_guard (openF : Nat → FileM) (img : List Nat) :
    ∀ (fuel p : Nat) (es : List (Nat × Nat)),
      recCalls openF img fuel p = .ok es →
      ∀ e ∈ es, e.1 ≠ e.2 ∧ is_dir (openF e.2) = true := by
  intro fuel
  induction fuel with
  | zero =>
    intro p es h
    cases h
  | succ fuel ih =>
    intro p es h
    simp only [recCalls] at h
    cases hE : enumerate_dirent (openF p) img with
    | error err => rw [hE] at h; cases h
    | ok des =>
      rw [hE] at h
      dsimp only at h
      exact recEntries_guard _ _ _ p (fun q es' h' => ih q es' h') des es h

/-- The opened-file environment for the C8 witness: file 4 is the MFD (one
used block, record size 16, first free byte 32), file 5 an empty
sub-directory, all others empty non-directories. -/
def recExOpen : Nat → FileM := fun n =>
  if n = 4 then FileM.mk [(1, 0)] 1 32 16 "DIR".toList 1
  else if n = 5 then FileM.mk [] 0 0 16 "DIR".toList 1
  else FileM.mk [] 0 0 16 [] 0

/-- The image for the C8 witness: the MFD's block holds an entry for file 4
(the self-reference) at offset 0 and an entry for file 5 at offset 16. -/
def recExImg : List Nat :=
  (List.range 512).map (fun i => if i = 0 then 4 else if i = 16 then 5 else 0)

set_option maxRecDepth 8000 in
/-- Witness for C8: on the concrete environment the run succeeds, its only
recursion edge is (4, 5) — the self-reference entry for file 4 is reported
but not recursed into — and the edge satisfies the guard. -/
theorem recursion_guard_witness :
    recCalls recExOpen recExImg 3 4 = .ok [(4, 5)] ∧
    ∀ e ∈ [((4 : Nat), (5 : Nat))], e.1 ≠ e.2 ∧ is_dir (recExOpen e.2) = true :=
  ⟨by decide, recursion_guard recExOpen recExImg 3 4 [(4, 5)] (by decide)⟩

/-! ## Home-block location (`Home_Block.__init__`) -/

/-- View a block read as a `List Nat` as a buffer-as-function. -/
def bufOf (b : List Nat) : Nat → Nat := fun i => b.getD i 0

/-- The retry loop of `Home_Block.__init__`:

    self.lbn = 1
    mult = 0
    while True:
        buf = read_lbn( self.f, self.lbn)
        try:
            self.get_hb( buf)
            return
        except Invalid_Block:
            mult += 1
            self.lbn = 256 * mult

Only `Invalid_Block` is caught; the `OSError` of `read_lbn` and any
`UnicodeDecodeError` of `get_hb` propagate immediately.  `fuel` bounds the
modelled number of loop iterations; `none` means the loop was still running
after `fuel` iterations. -/
def hb_find (img : List Nat) : Nat → Nat → Nat → Option (Except Err (Home_Block × Nat))
  | 0, _, _ => none
  | fuel + 1, lbn, mult =>
      match read_lbn img lbn with
      | .error e => some (.error e)
      | .ok b =>
          match get_hb (bufOf b) with
          | .ok hb => some (.ok (hb, lbn))
          | .error .invalidBlock => hb_find img fuel (256 * (mult + 1)) (mult + 1)
          | .error e => some (.error e)

/-- `Home_Block.__init__`: the loop starts at LBN 1 with `mult = 0`. -/
def home_block_init (img : List Nat) (fuel : Nat) :
    Option (Except Err (Home_Block × Nat)) :=
  hb_find img fuel 1 0

lemma read_lbn_ok_len (img : List Nat) (lbn : Nat) (b : List Nat)
    (h : read_lbn img lbn = .ok b) : 512 * lbn + 512 ≤ img.length := by
  unfold read_lbn Block_SZ at h
  by_cases hc : ((img.drop (512 * lbn)).take 512).length = 512
  · simp only [List.length_take, List.length_drop] at hc
    omega
  · rw [if_neg hc] at h
    cases h

lemma hb_find_stops (img : List Nat) :
    ∀ (fuel mult : Nat), 1 ≤ mult → mult ≤ img.length / 131072 + 1 →
      img.length / 131072 + 2 - mult ≤ fuel →
      hb_find img fuel (256 * mult) mult ≠ none := by
  intro fuel
  induction fuel with
  | zero =>
    intro mult h1 h2 h3
    omega
  | succ fuel ih =>
    intro mult h1 h2 h3
    rw [hb_find]
    cases hr : read_lbn img (256 * mult) with
    | error e => simp [hr]
    | ok b =>
      have hlen := read_lbn_ok_len img (256 * mult) b hr
      have hmle : mult ≤ img.length / 131072 := by omega
      simp only [hr]
      cases hg : get_hb (bufOf b) with
      | ok hb => simp [hg]
      | error e =>
        cases e with
        | invalidBlock =>
          simp only [hg]
          exact ih (mult + 1) (by omega) (by omega) (by omega)
        | shortRead => simp [hg]
        | unicodeErr => simp [hg]
        | nameErr => simp [hg]
        | assertFail => simp [hg]
        | indexErr => simp [hg]
        | valueErr => simp [hg]
        | fuelOut => simp [hg]

/-- C10: home-block location terminates on every finite volume image: the
loop catches only the structural-validation error (retrying at LBN 256·k);
a short read — which must occur once the alternate LBN lies at or past the
end of the image — or any other error propagates immediately, so
`length / (512·256) + 2` loop iterations always suffice for the loop to
return (the model never runs out of fuel). -/
theorem home_block_terminates (img : List Nat) (fuel : Nat)
    (h : img.length / 131072 + 2 ≤ fuel) :
    home_block_init img fuel ≠ none := by
  rcases fuel with _ | fuel
  · omega
  · rw [home_block_init, hb_find]
    cases hr : read_lbn img 1 with
    | error e => simp [hr]
    | ok b =>
      simp only [hr]
      cases hg : get_hb (bufOf b) with
      | ok hb => simp [hg]
      | error e =>
        cases e with
        | invalidBlock =>
          simp only [hg]
          exact hb_find_stops img fuel 1 (by omega) (by omega) (by omega)
        | shortRead => simp [hg]
        | unicodeErr => simp [hg]
        | nameErr => simp [hg]
        | assertFail => simp [hg]
        | indexErr => simp [hg]
        | valueErr => simp [hg]
        | fuelOut => simp [hg]

/-- Witness for C10 on the empty (zero-length) image with the minimal
sufficient fuel. -/
theorem home_block_terminates_witness :
    (List.length ([] : List Nat)) / 131072 + 2 ≤ 2 ∧
    home_block_init ([] : List Nat) 2 ≠ none :=
  ⟨by decide, home_block_terminates [] 2 (by decide)⟩

end ODS
